/-
Verification of the Todoist Homey widget's synchronization core
(TaskStore / TaskTree in widgets/project and the realtime EventQueue).

The TypeScript/JavaScript source is shallowly embedded:
* JS `Map` objects (insertion ordered, unique keys) become association
  lists of records, with `set` replacing in place and `delete` filtering.
* JS `Date.parse` (which may yield `NaN`) is an explicit parameter
  `dp : String → Option Int`, `none` standing for `NaN`.
* JS string truthiness (`null`/`""` are falsy) is the `truthy` predicate
  on `Option String`.
* `Array.prototype.sort` with a consistent comparator is modelled by the
  stable `List.insertionSort` (JS sorts are required to be stable).
* Throwing methods return `Except StoreError _`.
* Timers become explicit state (armed-timer bookkeeping) plus explicit
  "timer fires" transition functions.
-/
import Mathlib

namespace TodoistWidget

/-- Project header: a `name` plus opaque extra fields (`{ name: string, ...rest }`). -/
structure TodoistProject where
  name : String
  extra : List (String × String)
deriving Repr, DecidableEq

/-- Task record as stored (`TodoistTask` in the source). -/
structure TodoistTask where
  id : String
  parent_id : Option String
  section_id : Option String
  child_order : Int
  content : String
  updated_at : String
deriving Repr, DecidableEq

/-- Internal section record used by the store (`SectionRecord` in the source). -/
structure SectionRecord where
  id : String
  name : String
  section_order : Int
  updated_at : String
deriving Repr, DecidableEq

/-- JS truthiness of a nullable string: `null` and `""` are falsy. -/
def truthy : Option String → Bool
  | none => false
  | some s => s ≠ ""

/-- `Map.get` on the task map (`this.tasks.get(id)`). -/
def findTask (tasks : List TodoistTask) (id : String) : Option TodoistTask :=
  tasks.find? (fun t => t.id == id)

/-- `Map.has` on the task map. -/
def hasTask (tasks : List TodoistTask) (id : String) : Bool :=
  (findTask tasks id).isSome

/-- `Map.set` on the task map: replace in place if the key exists, else append. -/
def setTask (tasks : List TodoistTask) (t : TodoistTask) : List TodoistTask :=
  if hasTask tasks t.id then tasks.map (fun u => if u.id == t.id then t else u)
  else tasks ++ [t]

/-- `Map.get` on the section map. -/
def findSec (secs : List SectionRecord) (id : String) : Option SectionRecord :=
  secs.find? (fun s => s.id == id)

/-- `Map.has` on the section map. -/
def hasSec (secs : List SectionRecord) (id : String) : Bool :=
  (findSec secs id).isSome

/-- `Map.set` on the section map. -/
def setSec (secs : List SectionRecord) (s : SectionRecord) : List SectionRecord :=
  if hasSec secs s.id then secs.map (fun u => if u.id == s.id then s else u)
  else secs ++ [s]

/-- Normalized store state (`class TaskStore`): project header plus the two maps. -/
structure TaskStore where
  project : Option TodoistProject
  sections : List SectionRecord
  tasks : List TodoistTask
deriving Repr, DecidableEq

/-- Errors thrown by store mutations (`throw new Error(...)` in the source). -/
inductive StoreError where
  | alreadyExists (id : String)
  | notFound (id : String)
deriving Repr, DecidableEq

/--
`TaskStore.isStale(incoming, current)`: both timestamps are run through
`Date.parse`; if either is `NaN` the update is NOT stale, otherwise stale
means the incoming time is strictly earlier than the current one.
-/
def isStale (dp : String → Option Int) (incoming current : String) : Bool :=
  match dp incoming, dp current with
  | some i, some c => i < c
  | _, _ => false

/-- Bulk payload (`TodoistProjectResponse`): `sections`/`tasks` may be absent. -/
structure TodoistProjectResponse where
  project : Option TodoistProject
  sections : Option (List SectionRecord)
  tasks : Option (List TodoistTask)
deriving Repr, DecidableEq

/-- `TaskStore.organize`: wholesale replacement from a bulk payload. -/
def TaskStore.organize (_s : TaskStore) (data : TodoistProjectResponse) : TaskStore :=
  { project := data.project
    sections := (data.sections.getD []).foldl (fun acc sec => setSec acc sec) []
    tasks := (data.tasks.getD []).foldl (fun acc t => setTask acc t) [] }

/-- `TaskStore.updateTask`: throws if absent, skips silently if stale, else replaces. -/
def TaskStore.updateTask (dp : String → Option Int) (s : TaskStore)
    (updatedTask : TodoistTask) : Except StoreError TaskStore :=
  match findTask s.tasks updatedTask.id with
  | none => .error (.notFound updatedTask.id)
  | some existing =>
    if isStale dp updatedTask.updated_at existing.updated_at then .ok s
    else .ok { s with tasks := setTask s.tasks updatedTask }

/-- `TaskStore.addTask`: throws if the id is already present, else inserts. -/
def TaskStore.addTask (s : TaskStore) (t : TodoistTask) : Except StoreError TaskStore :=
  if hasTask s.tasks t.id then .error (.alreadyExists t.id)
  else .ok { s with tasks := setTask s.tasks t }

/-- `TaskStore.addSection`: unconditional upsert, no staleness check, never throws. -/
def TaskStore.addSection (s : TaskStore) (sec : SectionRecord) : TaskStore :=
  { s with sections := setSec s.sections sec }

/--
`TaskStore.updateSection`: throws if absent; returns the store plus the
`skipped` flag (`{ skipped: boolean }` in the source).
-/
def TaskStore.updateSection (dp : String → Option Int) (s : TaskStore)
    (sec : SectionRecord) : Except StoreError (TaskStore × Bool) :=
  match findSec s.sections sec.id with
  | none => .error (.notFound sec.id)
  | some existing =>
    if isStale dp sec.updated_at existing.updated_at then .ok (s, true)
    else .ok ({ s with sections := setSec s.sections sec }, false)

/--
The `while (queue.length)` loop of `TaskStore.removeTask`, with explicit
fuel (the loop provably terminates within `tasks.length + 1` iterations,
which is the fuel `removeTask` supplies): pop the head id, delete it from
the map, then push the ids of all remaining tasks whose `parent_id`
equals the popped id.
-/
def removeTaskLoop : Nat → List String → List TodoistTask → List TodoistTask
  | 0, _, tasks => tasks
  | _ + 1, [], tasks => tasks
  | fuel + 1, current :: queue, tasks =>
    let tasks' := tasks.filter (fun t => t.id ≠ current)
    let children := (tasks'.filter (fun t => t.parent_id == some current)).map (fun t => t.id)
    removeTaskLoop fuel (queue ++ children) tasks'

/-- `TaskStore.removeTask`: no-op if absent, else breadth-first cascade delete. -/
def TaskStore.removeTask (s : TaskStore) (taskId : String) : TaskStore :=
  if hasTask s.tasks taskId then
    { s with tasks := removeTaskLoop (s.tasks.length + 1) [taskId] s.tasks }
  else s

/--
`TaskStore.removeSection`: no-op if absent; else snapshot the list of all
currently stored tasks whose `section_id` equals the section id (the
source calls this array `roots` but applies no root-ness filter), cascade
`removeTask` on each, then delete the section record.
-/
def TaskStore.removeSection (s : TaskStore) (sectionId : String) : TaskStore :=
  if hasSec s.sections sectionId then
    let roots := s.tasks.filter (fun t => t.section_id == some sectionId)
    let s' := roots.foldl (fun acc t => acc.removeTask t.id) s
    { s' with sections := s'.sections.filter (fun sec => sec.id ≠ sectionId) }
  else s

/--
The `sortByOrder` comparator of `TaskStore.snapshot` as a relation:
`child_order` ascending, ties broken by id ascending (`localeCompare`
modelled as lexicographic string order).
-/
def taskLe (a b : TodoistTask) : Prop :=
  a.child_order < b.child_order ∨ (a.child_order = b.child_order ∧ a.id ≤ b.id)

instance : DecidableRel taskLe := fun a b => by unfold taskLe; infer_instance

instance : IsTotal TodoistTask taskLe where
  total a b := by
    unfold taskLe
    rcases lt_trichotomy a.child_order b.child_order with h | h | h
    · exact Or.inl (Or.inl h)
    · rcases le_total a.id b.id with h2 | h2
      · exact Or.inl (Or.inr ⟨h, h2⟩)
      · exact Or.inr (Or.inr ⟨h.symm, h2⟩)
    · exact Or.inr (Or.inl h)

instance : IsTrans TodoistTask taskLe where
  trans a b c hab hbc := by
    unfold taskLe at *
    rcases hab with h1 | ⟨h1, h1'⟩ <;> rcases hbc with h2 | ⟨h2, h2'⟩
    · exact Or.inl (h1.trans h2)
    · exact Or.inl (h2 ▸ h1)
    · exact Or.inl (h1 ▸ h2)
    · exact Or.inr ⟨h1.trans h2, h1'.trans h2'⟩

/-- The section comparator `(a, b) => a.section_order - b.section_order` as a relation. -/
def secLe (a b : SectionRecord) : Prop :=
  a.section_order ≤ b.section_order

instance : DecidableRel secLe := fun a b => by unfold secLe; infer_instance

instance : IsTotal SectionRecord secLe where
  total a b := le_total a.section_order b.section_order

instance : IsTrans SectionRecord secLe where
  trans _ _ _ hab hbc := le_trans hab hbc

/-- Render node (`TodoistTaskNode`): a task annotated with children and depth. -/
inductive TaskNode where
  | mk (id : String) (parent_id : Option String) (section_id : Option String)
      (child_order : Int) (content : String) (updated_at : String)
      (children : List TaskNode) (depth : Nat)

def TaskNode.id : TaskNode → String
  | .mk i _ _ _ _ _ _ _ => i

def TaskNode.parent_id : TaskNode → Option String
  | .mk _ p _ _ _ _ _ _ => p

def TaskNode.section_id : TaskNode → Option String
  | .mk _ _ s _ _ _ _ _ => s

def TaskNode.child_order : TaskNode → Int
  | .mk _ _ _ c _ _ _ _ => c

def TaskNode.content : TaskNode → String
  | .mk _ _ _ _ c _ _ _ => c

def TaskNode.updated_at : TaskNode → String
  | .mk _ _ _ _ _ u _ _ => u

def TaskNode.children : TaskNode → List TaskNode
  | .mk _ _ _ _ _ _ ch _ => ch

def TaskNode.depth : TaskNode → Nat
  | .mk _ _ _ _ _ _ _ d => d

/--
Recursive construction of the node tree rooted at a task, with explicit
recursion fuel (`TaskStore.snapshot` links every task whose truthy
`parent_id` names a present task under that parent, sorts each sibling
list with `sortByOrder`, and assigns child depth = parent depth + 1).
-/
def buildNode (tasks : List TodoistTask) : Nat → TodoistTask → Nat → TaskNode
  | 0, t, depth =>
    .mk t.id t.parent_id t.section_id t.child_order t.content t.updated_at [] depth
  | fuel + 1, t, depth =>
    .mk t.id t.parent_id t.section_id t.child_order t.content t.updated_at
      ((List.insertionSort taskLe
          (tasks.filter (fun c => truthy c.parent_id && c.parent_id == some t.id))).map
        (fun c => buildNode tasks fuel c (depth + 1)))
      depth

/--
Root test of `TaskStore.snapshot`: a node is a root when its `parent_id`
is falsy (`null`/`""`) or names no stored task.
-/
def isRoot (tasks : List TodoistTask) (t : TodoistTask) : Bool :=
  if truthy t.parent_id then
    match t.parent_id with
    | some p => !(hasTask tasks p)
    | none => true
  else true

/-- A section joined with its sorted root nodes, as produced by `snapshot`. -/
structure SectionWithTasks where
  id : String
  name : String
  section_order : Int
  updated_at : String
  tasks : List TaskNode

/-- Snapshot result (`OrganizedProjectData`). -/
structure OrganizedProjectData where
  project : Option TodoistProject
  sections : List SectionWithTasks
  unsectioned : List TaskNode

/--
`TaskStore.snapshot`: build node trees for the roots, group roots whose
truthy `section_id` names a stored section under that section (sections
sorted by `section_order`), and collect roots with falsy `section_id`
into `unsectioned`; every sibling list is sorted by `sortByOrder`.
A root whose truthy `section_id` names no stored section lands in no
group (the source's `root.section_id && this.sections.has(root.section_id)`
guard fails, and the `!root.section_id` guard for `unsectioned` also fails).
-/
def TaskStore.snapshot (s : TaskStore) : OrganizedProjectData :=
  let fuel := s.tasks.length
  let roots := s.tasks.filter (fun t => isRoot s.tasks t)
  let unsectioned :=
    (List.insertionSort taskLe (roots.filter (fun t => !(truthy t.section_id)))).map
      (fun t => buildNode s.tasks fuel t 0)
  let sections :=
    (List.insertionSort secLe s.sections).map (fun sec =>
      { id := sec.id, name := sec.name, section_order := sec.section_order,
        updated_at := sec.updated_at,
        tasks := (List.insertionSort taskLe
            (roots.filter (fun t => truthy t.section_id && t.section_id == some sec.id))).map
          (fun t => buildNode s.tasks fuel t 0) : SectionWithTasks })
  { project := s.project, sections := sections, unsectioned := unsectioned }

/-! ### Staleness and error behaviour of the store mutations -/

/--
C4: for an existing task (resp. section), an update whose `updated_at`
parses strictly earlier than the stored one is a silent no-op (`.ok` with
the store unchanged), while an update with an equal timestamp is applied,
replacing the stored record.
-/
theorem update_staleness (dp : String → Option Int) (s : TaskStore) :
    (∀ t existing ti tc, findTask s.tasks t.id = some existing →
      dp t.updated_at = some ti → dp existing.updated_at = some tc →
      (ti < tc → s.updateTask dp t = .ok s) ∧
      (ti = tc → s.updateTask dp t = .ok { s with tasks := setTask s.tasks t })) ∧
    (∀ sec existing ti tc, findSec s.sections sec.id = some existing →
      dp sec.updated_at = some ti → dp existing.updated_at = some tc →
      (ti < tc → s.updateSection dp sec = .ok (s, true)) ∧
      (ti = tc →
        s.updateSection dp sec = .ok ({ s with sections := setSec s.sections sec }, false))) := by
  constructor
  · intro t existing ti tc hfind hti htc
    have hstale : isStale dp t.updated_at existing.updated_at = decide (ti < tc) := by
      unfold isStale
      rw [hti, htc]
    constructor
    · intro hlt
      simp [TaskStore.updateTask, hfind, hstale, hlt]
    · intro heq
      simp [TaskStore.updateTask, hfind, hstale, heq]
  · intro sec existing ti tc hfind hti htc
    have hstale : isStale dp sec.updated_at existing.updated_at = decide (ti < tc) := by
      unfold isStale
      rw [hti, htc]
    constructor
    · intro hlt
      simp [TaskStore.updateSection, hfind, hstale, hlt]
    · intro heq
      simp [TaskStore.updateSection, hfind, hstale, heq]

/-- Concrete timestamp parser for the witnesses below (stands in for `Date.parse`). -/
def wdp : String → Option Int :=
  fun x => if x = "t1" then some 1 else if x = "t2" then some 2 else none

def wTaskStored : TodoistTask := ⟨"a", none, none, 0, "stored", "t2"⟩

def wTaskOld : TodoistTask := ⟨"a", none, none, 0, "older", "t1"⟩

def wTaskEq : TodoistTask := ⟨"a", none, none, 0, "equal", "t2"⟩

def wTaskNaN : TodoistTask := ⟨"a", none, none, 0, "nan", "bogus"⟩

def wSecStored : SectionRecord := ⟨"s", "Stored", 0, "t2"⟩

def wSecOld : SectionRecord := ⟨"s", "Older", 0, "t1"⟩

def wSecEq : SectionRecord := ⟨"s", "Equal", 0, "t2"⟩

def wSecNaN : SectionRecord := ⟨"s", "NaN", 0, "bogus"⟩

def wStore : TaskStore := ⟨none, [wSecStored], [wTaskStored]⟩

/-- Witness for C4 at a concrete store: stale update skipped, equal-timestamp update applied. -/
theorem update_staleness_witness :
    wStore.updateTask wdp wTaskOld = .ok wStore ∧
    wStore.updateTask wdp wTaskEq = .ok { wStore with tasks := setTask wStore.tasks wTaskEq } ∧
    wStore.updateSection wdp wSecOld = .ok (wStore, true) ∧
    wStore.updateSection wdp wSecEq =
      .ok ({ wStore with sections := setSec wStore.sections wSecEq }, false) :=
  ⟨((update_staleness wdp wStore).1 wTaskOld wTaskStored 1 2 (by decide) (by decide)
      (by decide)).1 (by decide),
   ((update_staleness wdp wStore).1 wTaskEq wTaskStored 2 2 (by decide) (by decide)
      (by decide)).2 rfl,
   ((update_staleness wdp wStore).2 wSecOld wSecStored 1 2 (by decide) (by decide)
      (by decide)).1 (by decide),
   ((update_staleness wdp wStore).2 wSecEq wSecStored 2 2 (by decide) (by decide)
      (by decide)).2 rfl⟩

/--
C8: `addTask` fails with `AlreadyExists` exactly when the id is present
(otherwise it inserts); `updateTask`/`updateSection` fail with `NotFound`
exactly when the id is absent; `addSection` unconditionally upserts with
no staleness check and cannot fail (it is a total function). A failing
operation returns only the error and no store, so the store is unchanged
on error by construction.
-/
theorem mutation_error_conditions (dp : String → Option Int) (s : TaskStore)
    (t : TodoistTask) (sec : SectionRecord) :
    (hasTask s.tasks t.id = true ↔ s.addTask t = .error (.alreadyExists t.id)) ∧
    (hasTask s.tasks t.id = false ↔ s.addTask t = .ok { s with tasks := setTask s.tasks t }) ∧
    (findTask s.tasks t.id = none ↔ s.updateTask dp t = .error (.notFound t.id)) ∧
    ((∃ e, s.updateTask dp t = .error e) ↔ findTask s.tasks t.id = none) ∧
    (findSec s.sections sec.id = none ↔ s.updateSection dp sec = .error (.notFound sec.id)) ∧
    ((∃ e, s.updateSection dp sec = .error e) ↔ findSec s.sections sec.id = none) ∧
    s.addSection sec = { s with sections := setSec s.sections sec } := by
  refine ⟨?_, ?_, ?_, ?_, ?_, ?_, rfl⟩
  · unfold TaskStore.addTask
    cases h : hasTask s.tasks t.id <;> simp
  · unfold TaskStore.addTask
    cases h : hasTask s.tasks t.id <;> simp
  · unfold TaskStore.updateTask
    cases h : findTask s.tasks t.id <;> simp
    split <;> simp
  · unfold TaskStore.updateTask
    cases h : findTask s.tasks t.id <;> simp
    split <;> simp
  · unfold TaskStore.updateSection
    cases h : findSec s.sections sec.id <;> simp
    split <;> simp
  · unfold TaskStore.updateSection
    cases h : findSec s.sections sec.id <;> simp
    split <;> simp

/--
C10: if either side's `updated_at` fails to parse (`Date.parse` yields
`NaN`, modelled as `none`), the update is treated as not stale and is
applied, replacing the stored record.
-/
theorem nan_timestamps_apply (dp : String → Option Int) (s : TaskStore) :
    (∀ t existing, findTask s.tasks t.id = some existing →
      (dp t.updated_at = none ∨ dp existing.updated_at = none) →
      s.updateTask dp t = .ok { s with tasks := setTask s.tasks t }) ∧
    (∀ sec existing, findSec s.sections sec.id = some existing →
      (dp sec.updated_at = none ∨ dp existing.updated_at = none) →
      s.updateSection dp sec = .ok ({ s with sections := setSec s.sections sec }, false)) := by
  constructor
  · intro t existing hfind hnan
    have hstale : isStale dp t.updated_at existing.updated_at = false := by
      unfold isStale
      cases h1 : dp t.updated_at <;> cases h2 : dp existing.updated_at <;> simp_all
    simp [TaskStore.updateTask, hfind, hstale]
  · intro sec existing hfind hnan
    have hstale : isStale dp sec.updated_at existing.updated_at = false := by
      unfold isStale
      cases h1 : dp sec.updated_at <;> cases h2 : dp existing.updated_at <;> simp_all
    simp [TaskStore.updateSection, hfind, hstale]

/-- Witness for C10: an unparseable incoming timestamp still applies the update. -/
theorem nan_timestamps_apply_witness :
    wStore.updateTask wdp wTaskNaN = .ok { wStore with tasks := setTask wStore.tasks wTaskNaN } ∧
    wStore.updateSection wdp wSecNaN =
      .ok ({ wStore with sections := setSec wStore.sections wSecNaN }, false) :=
  ⟨(nan_timestamps_apply wdp wStore).1 wTaskNaN wTaskStored (by decide) (Or.inl (by decide)),
   (nan_timestamps_apply wdp wStore).2 wSecNaN wSecStored (by decide) (Or.inl (by decide))⟩

/-! ### Cascade removal: `removeTask` removes exactly the parent-chain closure -/

/--
`Reaches tasks root x`: the task id `x` is `root` itself or a stored task
whose `parent_id` chain leads back to `root` (all chain members stored in
`tasks`).
-/
inductive Reaches (tasks : List TodoistTask) (root : String) : String → Prop
  | refl : Reaches tasks root root
  | step (t : TodoistTask) (p : String) (ht : t ∈ tasks) (hp : t.parent_id = some p)
      (h : Reaches tasks root p) : Reaches tasks root t.id

/-- Tasks are determined by their id when the id column is duplicate-free. -/
theorem eq_of_mem_of_id_eq {T0 : List TodoistTask} (hnd : (T0.map TodoistTask.id).Nodup)
    {a b : TodoistTask} (ha : a ∈ T0) (hb : b ∈ T0) (h : a.id = b.id) : a = b :=
  List.inj_on_of_nodup_map hnd ha hb h

/--
Loop invariant of the `removeTask` BFS: `T0` is the original map, `r` the
removal root, `R` the ids already deleted, `queue` the worklist and
`tasks` the live map.
-/
structure RemoveInv (T0 : List TodoistTask) (r : String) (R queue : List String)
    (tasks : List TodoistTask) : Prop where
  tasks_eq : tasks = T0.filter (fun t => decide (t.id ∉ R))
  queue_reach : ∀ q ∈ queue, Reaches T0 r q
  removed_reach : ∀ x ∈ R, Reaches T0 r x
  frontier : ∀ t ∈ T0, t.id ∉ R → ∀ p, t.parent_id = some p → p ∈ R → t.id ∈ queue
  queue_nodup : queue.Nodup
  queue_live : ∀ q ∈ queue, ∃ t ∈ tasks, t.id = q
  root_tracked : r ∈ R ∨ (R = [] ∧ queue = [r])
  queue_src : ∀ q ∈ queue,
    (R = [] ∧ q = r) ∨ ∃ t ∈ T0, t.id = q ∧ ∃ p, t.parent_id = some p ∧ p ∈ R

/--
Main BFS lemma: under the loop invariant (with enough fuel), the loop
returns exactly the tasks not reachable from the removal root.
-/
theorem removeTaskLoop_mem (T0 : List TodoistTask) (r : String)
    (hnd : (T0.map TodoistTask.id).Nodup) :
    ∀ fuel R queue tasks, RemoveInv T0 r R queue tasks → tasks.length < fuel →
      ∀ t, t ∈ removeTaskLoop fuel queue tasks ↔ t ∈ T0 ∧ ¬ Reaches T0 r t.id := by
  intro fuel
  induction fuel with
  | zero => intro R queue tasks _ hlen; omega
  | succ fuel ih =>
    intro R queue tasks inv hlen t
    match queue with
    | [] =>
      -- the loop returns `tasks`; every reachable id is already in `R`
      have hr : r ∈ R := by
        rcases inv.root_tracked with h | ⟨_, h⟩
        · exact h
        · exact absurd h (by simp)
      have hcomplete : ∀ x, Reaches T0 r x → x ∈ R := by
        intro x hx
        induction hx with
        | refl => exact hr
        | step u p hu hp _ hpR =>
          by_cases huR : u.id ∈ R
          · exact huR
          · exact absurd (inv.frontier u hu huR p hp hpR) (by simp)
      show t ∈ tasks ↔ _
      rw [inv.tasks_eq, List.mem_filter]
      simp only [decide_eq_true_eq]
      constructor
      · rintro ⟨ht, hnR⟩
        exact ⟨ht, fun hre => hnR (hcomplete t.id hre)⟩
      · rintro ⟨ht, hnre⟩
        exact ⟨ht, fun hR => hnre (inv.removed_reach t.id hR)⟩
    | current :: rest =>
      -- one BFS step: delete `current`, enqueue its children
      obtain ⟨tc, htc_mem, htc_id⟩ := inv.queue_live current (by simp)
      have hreach_current : Reaches T0 r current := inv.queue_reach current (by simp)
      have hcurrent_notR : current ∉ R := by
        have := inv.tasks_eq ▸ htc_mem
        rw [List.mem_filter] at this
        simpa [htc_id] using this.2
      have htasks_sub : ∀ u ∈ tasks, u ∈ T0 := by
        intro u hu
        rw [inv.tasks_eq, List.mem_filter] at hu
        exact hu.1
      show t ∈ removeTaskLoop fuel
          (rest ++ (List.map (fun t => t.id)
            (List.filter (fun t => t.parent_id == some current)
              (List.filter (fun t => decide ¬t.id = current) tasks))))
          (List.filter (fun t => decide ¬t.id = current) tasks) ↔ _
      set tasks' := List.filter (fun t => decide ¬t.id = current) tasks with htasks'
      set children := List.map (fun t => t.id)
          (List.filter (fun t => t.parent_id == some current) tasks') with hchildren
      have htasks'_mem : ∀ u, u ∈ tasks' ↔ u ∈ tasks ∧ u.id ≠ current := by
        intro u
        rw [htasks', List.mem_filter]
        simp
      have htasks'_T0 : ∀ u ∈ tasks', u ∈ T0 := fun u hu =>
        htasks_sub u ((htasks'_mem u).mp hu).1
      have hch_mem : ∀ c, c ∈ children ↔
          ∃ u ∈ tasks', u.id = c ∧ u.parent_id = some current := by
        intro c
        rw [hchildren]
        simp only [List.mem_map, List.mem_filter, beq_iff_eq]
        constructor
        · rintro ⟨u, ⟨hu, hup⟩, rfl⟩
          exact ⟨u, hu, rfl, hup⟩
        · rintro ⟨u, hu, rfl, hup⟩
          exact ⟨u, ⟨hu, hup⟩, rfl⟩
      have htasks'_eq : tasks' = T0.filter (fun u => decide (u.id ∉ R ++ [current])) := by
        rw [htasks', inv.tasks_eq, List.filter_filter]
        apply List.filter_congr
        intro u _
        by_cases h1 : u.id ∈ R <;> by_cases h2 : u.id = current <;> simp [h1, h2]
      have hids_nodup' : (tasks'.map TodoistTask.id).Nodup := by
        have h1 : List.Sublist tasks' T0 := htasks'_eq ▸ List.filter_sublist T0
        exact (h1.map TodoistTask.id).nodup hnd
      have inv' : RemoveInv T0 r (R ++ [current]) (rest ++ children) tasks' := by
        constructor
        · exact htasks'_eq
        · intro q hq
          rcases List.mem_append.mp hq with h | h
          · exact inv.queue_reach q (by simp [h])
          · obtain ⟨u, hu, rfl, hup⟩ := (hch_mem q).mp h
            exact Reaches.step u current (htasks'_T0 u hu) hup hreach_current
        · intro x hx
          rcases List.mem_append.mp hx with h | h
          · exact inv.removed_reach x h
          · simp at h
            exact h ▸ hreach_current
        · intro u hu huR p hup hpR
          have huR1 : u.id ∉ R := fun h => huR (List.mem_append.mpr (Or.inl h))
          have huR2 : u.id ≠ current := by
            intro h
            exact huR (List.mem_append.mpr (Or.inr (by simp [h])))
          rcases List.mem_append.mp hpR with hpR | hpc
          · have hmem := inv.frontier u hu huR1 p hup hpR
            rcases List.mem_cons.mp hmem with h | h
            · exact absurd h huR2
            · exact List.mem_append.mpr (Or.inl h)
          · have hpc' : p = current := by simpa using hpc
            apply List.mem_append.mpr (Or.inr _)
            rw [hch_mem]
            refine ⟨u, ?_, rfl, hpc' ▸ hup⟩
            rw [htasks'_eq, List.mem_filter]
            exact ⟨hu, by simpa using huR⟩
        · -- Nodup of the new queue
          have hrest : rest.Nodup := inv.queue_nodup.of_cons
          have hch : children.Nodup := by
            rw [hchildren]
            have hsub : List.Sublist
                ((List.filter (fun t => t.parent_id == some current) tasks').map TodoistTask.id)
                (tasks'.map TodoistTask.id) :=
              (List.filter_sublist tasks').map TodoistTask.id
            exact hsub.nodup hids_nodup'
          refine hrest.append hch ?_
          intro q hq hq'
          obtain ⟨u, hu, rfl, hup⟩ := (hch_mem q).mp hq'
          rcases inv.queue_src u.id (by simp [hq]) with ⟨hR0, _⟩ | ⟨v, hv, hvid, p, hvp, hpR⟩
          · rcases inv.root_tracked with h | ⟨_, h⟩
            · exact absurd (hR0 ▸ h) (List.not_mem_nil r)
            · have : rest = [] := by
                have := h
                simp at this
                exact this.2
              simp [this] at hq
          · have : v = u := eq_of_mem_of_id_eq hnd hv (htasks'_T0 u hu) hvid
            rw [this, hup] at hvp
            have : p = current := by simpa using hvp.symm
            exact hcurrent_notR (this ▸ hpR)
        · intro q hq
          rcases List.mem_append.mp hq with h | h
          · obtain ⟨u, hu, huid⟩ := inv.queue_live q (by simp [h])
            refine ⟨u, ?_, huid⟩
            rw [htasks'_mem]
            refine ⟨hu, ?_⟩
            rw [huid]
            intro hqc
            exact (List.nodup_cons.mp inv.queue_nodup).1 (hqc ▸ h)
          · obtain ⟨u, hu, rfl, _⟩ := (hch_mem q).mp h
            exact ⟨u, hu, rfl⟩
        · left
          rcases inv.root_tracked with h | ⟨hR0, hq⟩
          · exact List.mem_append.mpr (Or.inl h)
          · have : current = r := by
              have := hq
              simp at this
              exact this.1
            exact List.mem_append.mpr (Or.inr (by simp [this]))
        · intro q hq
          right
          rcases List.mem_append.mp hq with h | h
          · rcases inv.queue_src q (by simp [h]) with ⟨hR0, rfl⟩ | ⟨u, hu, huid, p, hup, hpR⟩
            · rcases inv.root_tracked with hr | ⟨_, hqr⟩
              · exact absurd (hR0 ▸ hr) (by simp)
              · have : rest = [] := by
                  have := hqr
                  simp at this
                  exact this.2
                simp [this] at h
            · exact ⟨u, hu, huid, p, hup, List.mem_append.mpr (Or.inl hpR)⟩
          · obtain ⟨u, hu, rfl, hup⟩ := (hch_mem q).mp h
            exact ⟨u, htasks'_T0 u hu, rfl, current, hup,
              List.mem_append.mpr (Or.inr (by simp))⟩
      have hlen' : tasks'.length < fuel := by
        have hdrop : tasks'.length < tasks.length := by
          rw [htasks']
          apply List.length_filter_lt_length_iff_exists.mpr
          exact ⟨tc, htc_mem, by simp [htc_id]⟩
        omega
      exact ih (R ++ [current]) (rest ++ children) tasks' inv' hlen' t

/--
C5: `removeTask(id)` is a no-op when the id is absent; otherwise the
surviving tasks are exactly the stored tasks whose `parent_id` chain does
not lead back to the removed id (the removed id and all its transitive
descendants are gone, everything else stays).
-/
theorem removeTask_cascade (s : TaskStore) (taskId : String)
    (hnd : (s.tasks.map TodoistTask.id).Nodup) :
    (hasTask s.tasks taskId = false → s.removeTask taskId = s) ∧
    (hasTask s.tasks taskId = true →
      ∀ t, t ∈ (s.removeTask taskId).tasks ↔ t ∈ s.tasks ∧ ¬ Reaches s.tasks taskId t.id) := by
  constructor
  · intro habs
    unfold TaskStore.removeTask
    rw [habs]
    rfl
  · intro hpres t
    unfold TaskStore.removeTask
    rw [hpres]
    show t ∈ removeTaskLoop (s.tasks.length + 1) [taskId] s.tasks ↔ _
    apply removeTaskLoop_mem s.tasks taskId hnd (s.tasks.length + 1) [] [taskId] s.tasks _
      (by omega)
    constructor
    · simp
    · intro q hq
      have : q = taskId := by simpa using hq
      exact this ▸ Reaches.refl
    · simp
    · intro u _ _ p _ hp
      exact absurd hp (by simp)
    · simp
    · intro q hq
      have hq' : q = taskId := by simpa using hq
      unfold hasTask at hpres
      obtain ⟨u, hfind⟩ := Option.isSome_iff_exists.mp hpres
      refine ⟨u, List.mem_of_find?_eq_some hfind, ?_⟩
      have := List.find?_some hfind
      rw [hq']
      simpa using this
    · right
      exact ⟨rfl, rfl⟩
    · intro q hq
      left
      exact ⟨rfl, by simpa using hq⟩

def exP : TodoistTask := ⟨"P", none, none, 0, "parent", "u"⟩

def exC : TodoistTask := ⟨"C", some "P", none, 0, "child", "u"⟩

def exG : TodoistTask := ⟨"G", some "C", none, 0, "grandchild", "u"⟩

def exCascadeStore : TaskStore := ⟨none, [], [exP, exC, exG]⟩

/--
Witness for C5 at the spec's own example: root `P`, child `C`, grandchild
`G`; `removeTask("P")` removes all three.
-/
theorem removeTask_cascade_witness :
    (exCascadeStore.removeTask "P").tasks = [] ∧
    (exG ∈ (exCascadeStore.removeTask "P").tasks ↔
      exG ∈ exCascadeStore.tasks ∧ ¬ Reaches exCascadeStore.tasks "P" exG.id) :=
  ⟨by decide, (removeTask_cascade exCascadeStore "P" (by decide)).2 (by decide) exG⟩

/-! ### `removeSection`: the cascade selects by `section_id` alone, with no root filter -/

/-- Every task surviving the BFS loop was in the incoming map. -/
theorem removeTaskLoop_subset :
    ∀ fuel queue tasks (t : TodoistTask), t ∈ removeTaskLoop fuel queue tasks → t ∈ tasks := by
  intro fuel
  induction fuel with
  | zero => intro queue tasks t h; exact h
  | succ fuel ih =>
    intro queue tasks t h
    cases queue with
    | nil => exact h
    | cons current rest =>
      have h' := ih _ _ t h
      rw [List.mem_filter] at h'
      exact h'.1

/-- Every task surviving `removeTask x` was stored before and does not carry id `x`. -/
theorem removeTask_mem (s : TaskStore) (x : String) (t : TodoistTask)
    (h : t ∈ (s.removeTask x).tasks) : t ∈ s.tasks ∧ t.id ≠ x := by
  unfold TaskStore.removeTask at h
  by_cases hx : hasTask s.tasks x = true
  · rw [if_pos hx] at h
    simp only [removeTaskLoop, List.nil_append] at h
    have h' := removeTaskLoop_subset _ _ _ t h
    rw [List.mem_filter] at h'
    exact ⟨h'.1, by simpa using h'.2⟩
  · rw [if_neg hx] at h
    refine ⟨h, ?_⟩
    have hnone : findTask s.tasks x = none := by
      unfold hasTask at hx
      exact Option.not_isSome_iff_eq_none.mp hx
    have := List.find?_eq_none.mp hnone t h
    simpa using this

/-- `removeTask` touches only the task map. -/
theorem removeTask_sections (s : TaskStore) (x : String) :
    (s.removeTask x).sections = s.sections ∧ (s.removeTask x).project = s.project := by
  unfold TaskStore.removeTask
  split <;> exact ⟨rfl, rfl⟩

/-- Folding `removeTask` over a list removes every listed id and adds nothing. -/
theorem foldl_removeTask_mem (l : List TodoistTask) (s : TaskStore) (t : TodoistTask)
    (h : t ∈ (l.foldl (fun acc u => acc.removeTask u.id) s).tasks) :
    t ∈ s.tasks ∧ ∀ u ∈ l, t.id ≠ u.id := by
  induction l generalizing s with
  | nil => exact ⟨h, by simp⟩
  | cons x xs ih =>
    obtain ⟨h1, h2⟩ := ih (s.removeTask x.id) h
    obtain ⟨h3, h4⟩ := removeTask_mem s x.id t h1
    refine ⟨h3, ?_⟩
    intro u hu
    rcases List.mem_cons.mp hu with rfl | hu'
    · exact h4
    · exact h2 u hu'

/-- Folding `removeTask` never touches sections or project. -/
theorem foldl_removeTask_sections (l : List TodoistTask) (s : TaskStore) :
    (l.foldl (fun acc u => acc.removeTask u.id) s).sections = s.sections ∧
    (l.foldl (fun acc u => acc.removeTask u.id) s).project = s.project := by
  induction l generalizing s with
  | nil => exact ⟨rfl, rfl⟩
  | cons x xs ih =>
    obtain ⟨h1, h2⟩ := ih (s.removeTask x.id)
    obtain ⟨h3, h4⟩ := removeTask_sections s x.id
    exact ⟨h1.trans h3, h2.trans h4⟩

def cA : TodoistTask := ⟨"a", none, none, 0, "A", "u"⟩

def cB : TodoistTask := ⟨"b", some "a", some "s1", 0, "B", "u"⟩

def cSec : SectionRecord := ⟨"s1", "S", 0, "u"⟩

def cStore : TaskStore := ⟨none, [cSec], [cA, cB]⟩

/--
Counterexample to C2 as stated: `b` is a non-root task (its parent is
`a`) carrying `section_id = "s1"`, and the claim says it is not selected
for the cascade — yet `removeSection("s1")` removes it (the source
filters by `section_id` alone, with no root-ness test).
-/
theorem removeSection_nonroot_counterexample :
    cB.parent_id ≠ none ∧ cB.section_id = some "s1" ∧ cB ∈ cStore.tasks ∧
    cB ∉ (cStore.removeSection "s1").tasks ∧
    (cStore.removeSection "s1").tasks = [cA] := by decide

/--
C2 amended: `removeSection(id)` is a no-op when the section is absent;
otherwise it cascades `removeTask` on every currently-stored task whose
`section_id` equals `id` — root or not — and then deletes the section
record, so afterwards the section is gone, no surviving task carries that
`section_id`, no new task appears, and the project is untouched.
-/
theorem removeSection_cascade (s : TaskStore) (sectionId : String) :
    (hasSec s.sections sectionId = false → s.removeSection sectionId = s) ∧
    (hasSec s.sections sectionId = true →
      (s.removeSection sectionId).sections =
        s.sections.filter (fun sec => decide (sec.id ≠ sectionId)) ∧
      (∀ t ∈ (s.removeSection sectionId).tasks,
        t ∈ s.tasks ∧ t.section_id ≠ some sectionId) ∧
      (s.removeSection sectionId).project = s.project) := by
  constructor
  · intro habs
    unfold TaskStore.removeSection
    rw [habs]
    rfl
  · intro hpres
    unfold TaskStore.removeSection
    rw [hpres]
    simp only [if_pos]
    refine ⟨?_, ?_, ?_⟩
    · rw [(foldl_removeTask_sections _ s).1]
    · intro t ht
      obtain ⟨h1, h2⟩ := foldl_removeTask_mem _ s t ht
      refine ⟨h1, ?_⟩
      intro hsid
      exact h2 t (List.mem_filter.mpr ⟨h1, by simp [hsid]⟩) rfl
    · exact (foldl_removeTask_sections _ s).2

/-- Witness for the amended C2 at the concrete two-task store. -/
theorem removeSection_cascade_witness :
    (cStore.removeSection "s1").sections =
      cStore.sections.filter (fun sec => decide (sec.id ≠ "s1")) ∧
    (cStore.removeSection "s1").project = cStore.project ∧
    (cStore.removeSection "missing") = cStore :=
  ⟨((removeSection_cascade cStore "s1").2 (by decide)).1,
   ((removeSection_cascade cStore "s1").2 (by decide)).2.2,
   (removeSection_cascade cStore "missing").1 (by decide)⟩

/-! ### Snapshot grouping of roots with a dangling `section_id` -/

/-- The node built for a task keeps the task's id. -/
theorem buildNode_id (tasks : List TodoistTask) (fuel : Nat) (t : TodoistTask) (d : Nat) :
    (buildNode tasks fuel t d).id = t.id := by
  cases fuel <;> rfl

def dTask : TodoistTask := ⟨"t1", none, some "ghost", 0, "T", "u"⟩

def dStore : TaskStore := ⟨none, [], [dTask]⟩

/--
Counterexample to C1 as stated: `t1` is a root task whose `section_id`
names the absent section `"ghost"`; the claim places it in `unsectioned`,
but the snapshot drops it entirely — it appears in neither `unsectioned`
nor any section's task list (both are empty here).
-/
theorem snapshot_dangling_counterexample :
    isRoot dStore.tasks dTask = true ∧
    truthy dTask.section_id = true ∧
    hasSec dStore.sections "ghost" = false ∧
    dTask ∈ dStore.tasks ∧
    (dStore.snapshot).unsectioned = [] ∧
    (dStore.snapshot).sections = [] :=
  ⟨rfl, rfl, rfl, by decide, rfl, rfl⟩

/--
C1 amended: a root task whose truthy `section_id` names no stored section
is omitted from the snapshot grouping entirely — it lands in neither
`unsectioned` nor any section's task list — although it is still stored
and found by id lookup. (Only roots with a falsy `section_id` are
collected into `unsectioned`.)
-/
theorem snapshot_dangling_root_dropped (s : TaskStore) (t : TodoistTask)
    (hnd : (s.tasks.map TodoistTask.id).Nodup)
    (ht : t ∈ s.tasks)
    (hsid : truthy t.section_id = true)
    (habs : ∀ p, t.section_id = some p → hasSec s.sections p = false) :
    t.id ∉ (s.snapshot).unsectioned.map TaskNode.id ∧
    (∀ sec ∈ (s.snapshot).sections, t.id ∉ sec.tasks.map TaskNode.id) ∧
    hasTask s.tasks t.id = true := by
  refine ⟨?_, ?_, ?_⟩
  · intro hmem
    simp only [TaskStore.snapshot, List.mem_map] at hmem
    obtain ⟨node, hnode, hid⟩ := hmem
    obtain ⟨u, hu, rfl⟩ := hnode
    rw [buildNode_id] at hid
    have hu' := (List.perm_insertionSort taskLe _).mem_iff.mp hu
    rw [List.mem_filter] at hu'
    obtain ⟨hu1, hu2⟩ := hu'
    rw [List.mem_filter] at hu1
    have : u = t := eq_of_mem_of_id_eq hnd hu1.1 ht hid
    rw [this] at hu2
    rw [hsid] at hu2
    exact absurd hu2 (by simp)
  · intro sec hsec hmem
    simp only [TaskStore.snapshot, List.mem_map] at hsec
    obtain ⟨secR, hsecR, rfl⟩ := hsec
    simp only [List.mem_map] at hmem
    obtain ⟨node, hnode, hid⟩ := hmem
    obtain ⟨u, hu, rfl⟩ := hnode
    rw [buildNode_id] at hid
    have hu' := (List.perm_insertionSort taskLe _).mem_iff.mp hu
    rw [List.mem_filter] at hu'
    obtain ⟨hu1, hu2⟩ := hu'
    rw [List.mem_filter] at hu1
    have hut : u = t := eq_of_mem_of_id_eq hnd hu1.1 ht hid
    rw [hut] at hu2
    have hsecmem : secR ∈ s.sections := (List.perm_insertionSort secLe _).mem_iff.mp hsecR
    have hsid2 : t.section_id = some secR.id := by
      have := hu2
      rw [Bool.and_eq_true] at this
      simpa using this.2
    have hfalse := habs secR.id hsid2
    have htrue : hasSec s.sections secR.id = true := by
      unfold hasSec findSec
      rw [Option.isSome_iff_exists]
      have : ∃ a, List.find? (fun s => s.id == secR.id) s.sections = some a := by
        have h1 : (List.find? (fun s => s.id == secR.id) s.sections).isSome := by
          rw [List.find?_isSome]
          exact ⟨secR, hsecmem, by simp⟩
        exact Option.isSome_iff_exists.mp h1
      exact this
    rw [hfalse] at htrue
    exact absurd htrue (by simp)
  · unfold hasTask findTask
    rw [List.find?_isSome]
    exact ⟨t, ht, by simp⟩

/-- Witness for the amended C1 at the concrete dangling-section store. -/
theorem snapshot_dangling_root_dropped_witness :
    "t1" ∉ (dStore.snapshot).unsectioned.map TaskNode.id ∧
    hasTask dStore.tasks "t1" = true := by
  have h := snapshot_dangling_root_dropped dStore dTask (by decide) (by decide) (by decide)
    (by intro p hp; cases hp; rfl)
  exact ⟨h.1, h.2.2⟩

/-! ### Sibling ordering in snapshots -/

/-- The `sortByOrder` key on render nodes: `child_order` ascending, ties by id ascending. -/
def nodeLe (a b : TaskNode) : Prop :=
  a.child_order < b.child_order ∨ (a.child_order = b.child_order ∧ a.id ≤ b.id)

/-- Every sibling list inside the tree rooted at a node is sorted by `nodeLe`. -/
inductive SiblingSorted : TaskNode → Prop
  | mk (n : TaskNode) (hpair : n.children.Pairwise nodeLe)
      (hch : ∀ c ∈ n.children, SiblingSorted c) : SiblingSorted n

/-- The node built for a task keeps the task's `child_order`. -/
theorem buildNode_child_order (tasks : List TodoistTask) (fuel : Nat) (t : TodoistTask)
    (d : Nat) : (buildNode tasks fuel t d).child_order = t.child_order := by
  cases fuel <;> rfl

/-- `buildNode` turns the task ordering key into the node ordering key. -/
theorem taskLe_to_nodeLe (tasks : List TodoistTask) (fuel : Nat) (d : Nat)
    (a b : TodoistTask) (h : taskLe a b) :
    nodeLe (buildNode tasks fuel a d) (buildNode tasks fuel b d) := by
  unfold nodeLe
  rw [buildNode_child_order, buildNode_child_order, buildNode_id, buildNode_id]
  exact h

/-- Every tree built by `buildNode` has all its sibling lists sorted. -/
theorem buildNode_siblingSorted (tasks : List TodoistTask) :
    ∀ fuel t d, SiblingSorted (buildNode tasks fuel t d) := by
  intro fuel
  induction fuel with
  | zero =>
    intro t d
    exact .mk _ (by simp [buildNode, TaskNode.children]) (by simp [buildNode, TaskNode.children])
  | succ fuel ih =>
    intro t d
    refine .mk _ ?_ ?_
    · show (List.map _ (List.insertionSort taskLe _)).Pairwise nodeLe
      exact (List.sorted_insertionSort taskLe _).map _ (taskLe_to_nodeLe tasks fuel (d + 1))
    · intro c hc
      obtain ⟨u, _, rfl⟩ := List.mem_map.mp hc
      exact ih u (d + 1)

def ordA : TodoistTask := ⟨"a", none, none, 3, "A", "u"⟩

def ordB : TodoistTask := ⟨"b", none, none, 1, "B", "u"⟩

def ordC : TodoistTask := ⟨"c", none, none, 2, "C", "u"⟩

def ordStore1 : TaskStore := ⟨none, [], [ordA, ordB, ordC]⟩

def ordStore2 : TaskStore := ⟨none, [], [ordC, ordA, ordB]⟩

/--
C6: in every snapshot, every sibling list — the unsectioned roots, each
section's root list, and the children of every node at any depth — is
sorted by `child_order` ascending with ties broken by ascending id; and
the spec's example holds: tasks with `child_order` `[3,1,2]` and ids
`[a,b,c]` render as `[b,c,a]` under either insertion order.
-/
theorem snapshot_sibling_sorted (s : TaskStore) :
    ((s.snapshot).unsectioned.Pairwise nodeLe ∧
      ∀ n ∈ (s.snapshot).unsectioned, SiblingSorted n) ∧
    (∀ sec ∈ (s.snapshot).sections,
      sec.tasks.Pairwise nodeLe ∧ ∀ n ∈ sec.tasks, SiblingSorted n) ∧
    (ordStore1.snapshot).unsectioned.map TaskNode.id = ["b", "c", "a"] ∧
    (ordStore2.snapshot).unsectioned.map TaskNode.id = ["b", "c", "a"] := by
  refine ⟨⟨?_, ?_⟩, ?_, by decide, by decide⟩
  · show (List.map _ (List.insertionSort taskLe _)).Pairwise nodeLe
    exact (List.sorted_insertionSort taskLe _).map _
      (taskLe_to_nodeLe s.tasks s.tasks.length 0)
  · intro n hn
    obtain ⟨u, _, rfl⟩ := List.mem_map.mp hn
    exact buildNode_siblingSorted s.tasks s.tasks.length u 0
  · intro sec hsec
    simp only [TaskStore.snapshot, List.mem_map] at hsec
    obtain ⟨secR, _, rfl⟩ := hsec
    constructor
    · show (List.map _ (List.insertionSort taskLe _)).Pairwise nodeLe
      exact (List.sorted_insertionSort taskLe _).map _
        (taskLe_to_nodeLe s.tasks s.tasks.length 0)
    · intro n hn
      obtain ⟨u, _, rfl⟩ := List.mem_map.mp hn
      exact buildNode_siblingSorted s.tasks s.tasks.length u 0

/-- Witness for C6: applies the general theorem at a concrete store. -/
theorem snapshot_sibling_sorted_witness :
    (ordStore1.snapshot).unsectioned.Pairwise nodeLe ∧
    (ordStore2.snapshot).unsectioned.map TaskNode.id = ["b", "c", "a"] :=
  ⟨(snapshot_sibling_sorted ordStore1).1.1, (snapshot_sibling_sorted ordStore1).2.2.2⟩

/-! ### The realtime event reorder queue (`EventQueue`) -/

/-- Duck-typed `event_data` payload; `""` stands for an absent string field. -/
structure EventData where
  id : String
  parent_id : Option String
  section_id : Option String
  child_order : Int
  content : String
  updated_at : String
  name : String
  section_order : Int
deriving Repr, DecidableEq

/-- Realtime event envelope `{ event_name, event_data }`. -/
structure WidgetEvent where
  event_name : String
  event_data : EventData
deriving Repr, DecidableEq

/-- View of an event payload as a task record (the source's `as TodoistTask` cast). -/
def EventData.toTask (d : EventData) : TodoistTask :=
  ⟨d.id, d.parent_id, d.section_id, d.child_order, d.content, d.updated_at⟩

/-- View of an event payload as a section record (the source's cast). -/
def EventData.toSection (d : EventData) : SectionRecord :=
  ⟨d.id, d.name, d.section_order, d.updated_at⟩

/-- A buffered event with its reorder timestamp (`none` models `NaN`). -/
structure QueuedEvent where
  event : WidgetEvent
  timestamp : Option Int
deriving Repr, DecidableEq

/-- `Map.get` on a string-keyed JS map. -/
def alGet {β : Type} : List (String × β) → String → Option β
  | [], _ => none
  | e :: m, k => if e.1 = k then some e.2 else alGet m k

/-- `Map.set` on a string-keyed JS map: replace in place or append. -/
def alSet {β : Type} : List (String × β) → String → β → List (String × β)
  | [], k, v => [(k, v)]
  | e :: m, k, v => if e.1 = k then (k, v) :: m else e :: alSet m k v

/-- `Map.delete` on a string-keyed JS map. -/
def alDelete {β : Type} (m : List (String × β)) (k : String) : List (String × β) :=
  m.filter (fun e => e.1 ≠ k)

theorem alGet_set {β : Type} (m : List (String × β)) (k : String) (v : β) :
    alGet (alSet m k v) k = some v := by
  induction m with
  | nil => simp [alSet, alGet]
  | cons e m ih =>
    by_cases h : e.1 = k
    · simp [alSet, alGet, h]
    · simp [alSet, alGet, h, ih]

theorem alGet_delete {β : Type} (m : List (String × β)) (k : String) :
    alGet (alDelete m k) k = none := by
  induction m with
  | nil => rfl
  | cons e m ih =>
    by_cases h : e.1 = k <;> simp [alDelete, alGet, List.filter, h] at *
    · exact ih
    · exact ih

/--
`EventQueue` state: per-entity buffers of failed events and per-entity
armed timer ids; `nextTimerId` is the timer-id supply and
`cancelledTimers` records every timer cancelled by `clearTimeout` (a
timer fires iff it was handed out and never cancelled).
-/
structure EQState where
  pendingEvents : List (String × List QueuedEvent)
  pendingEventTimers : List (String × Nat)
  nextTimerId : Nat
  cancelledTimers : List Nat
deriving Repr, DecidableEq

/--
The reorder timestamp of `EventQueue.process`: the payload's
`updated_at` run through `Date.parse` when truthy, else the wall-clock
arrival time `now`.
-/
def eventTimestamp (dp : String → Option Int) (now : Int) (e : WidgetEvent) : Option Int :=
  if e.event_data.updated_at ≠ "" then dp e.event_data.updated_at else some now

/--
`EventQueue.queueForReorder`: append the event to the entity's buffer,
cancel any previously armed timer for that entity, and arm a fresh one.
-/
def queueForReorder (st : EQState) (entityId : String) (e : WidgetEvent)
    (ts : Option Int) : EQState :=
  let buf := (alGet st.pendingEvents entityId).getD []
  { pendingEvents := alSet st.pendingEvents entityId (buf ++ [⟨e, ts⟩])
    pendingEventTimers := alSet st.pendingEventTimers entityId st.nextTimerId
    nextTimerId := st.nextTimerId + 1
    cancelledTimers :=
      match alGet st.pendingEventTimers entityId with
      | some tid => st.cancelledTimers ++ [tid]
      | none => st.cancelledTimers }

/-- Result of a queue entry point: new state, handler invocations, error reports. -/
structure EQOutcome where
  state : EQState
  handlerCalls : List WidgetEvent
  errors : List WidgetEvent
deriving Repr, DecidableEq

/--
`EventQueue.process`: run the handler; on failure buffer per entity id
when the payload carries a truthy id, else report via `onError`.
-/
def EventQueue.process (handler : WidgetEvent → Bool) (dp : String → Option Int) (now : Int)
    (st : EQState) (e : WidgetEvent) : EQOutcome :=
  if handler e then ⟨st, [e], []⟩
  else
    if e.event_data.id ≠ "" then
      ⟨queueForReorder st e.event_data.id e (eventTimestamp dp now e), [e], []⟩
    else
      ⟨st, [e], [e]⟩

/--
Comparator `(a, b) => a.timestamp - b.timestamp` as a relation; a `NaN`
timestamp compares as equal (the ECMAScript sort maps a `NaN` comparator
result to `+0`).
-/
def qeLeB (a b : QueuedEvent) : Bool :=
  match a.timestamp, b.timestamp with
  | some x, some y => decide (x ≤ y)
  | _, _ => true

def qeLe (a b : QueuedEvent) : Prop := qeLeB a b = true

instance : DecidableRel qeLe := fun a b => by unfold qeLe; infer_instance

/--
`EventQueue.processPending` (the armed timer's callback): sort the
entity's buffer by timestamp, run the handler on each event in order,
report each still-failing event via `onError`, then drop the buffer and
the timer entry — the buffer is cleared regardless of per-event outcome
and no new timer is armed.
-/
def EventQueue.processPending (handler : WidgetEvent → Bool) (st : EQState)
    (entityId : String) : EQOutcome :=
  match alGet st.pendingEvents entityId with
  | none => ⟨st, [], []⟩
  | some events =>
    if events.length = 0 then ⟨st, [], []⟩
    else
      let sorted := List.insertionSort qeLe events
      ⟨{ st with pendingEvents := alDelete st.pendingEvents entityId
                 pendingEventTimers := alDelete st.pendingEventTimers entityId },
        sorted.map (fun q => q.event),
        (sorted.filter (fun q => !handler q.event)).map (fun q => q.event)⟩

/-- `EventQueue.clear`: cancel every armed timer and discard all buffers. -/
def EventQueue.clear (st : EQState) : EQState :=
  { pendingEvents := []
    pendingEventTimers := []
    nextTimerId := st.nextTimerId
    cancelledTimers := st.cancelledTimers ++ (st.pendingEventTimers.map (fun e => e.2)) }

/-- `orderedInsert` preserves sortedness when the relation is total and transitive on the elements involved. -/
theorem pairwise_orderedInsert_rel {α : Type} (r : α → α → Prop) [DecidableRel r] (P : α → Prop)
    (total : ∀ a b, P a → P b → r a b ∨ r b a)
    (trans : ∀ a b c, P a → P b → P c → r a b → r b c → r a c)
    (a : α) (hPa : P a) :
    ∀ l, (∀ x ∈ l, P x) → l.Pairwise r → (List.orderedInsert r a l).Pairwise r := by
  intro l
  induction l with
  | nil => intro _ _; simp [List.orderedInsert]
  | cons b l ih =>
    intro hP hpw
    rw [List.orderedInsert]
    split
    case isTrue hab =>
      refine List.Pairwise.cons ?_ hpw
      intro x hx
      rcases List.mem_cons.mp hx with rfl | hx'
      · exact hab
      · exact trans a b x hPa (hP b (by simp)) (hP x (by simp [hx'])) hab
          (List.rel_of_pairwise_cons hpw hx')
    case isFalse hab =>
      have hba : r b a := (total a b hPa (hP b (by simp))).resolve_left hab
      refine List.Pairwise.cons ?_ (ih (fun x hx => hP x (by simp [hx])) hpw.of_cons)
      intro x hx
      rcases (List.mem_orderedInsert r).mp hx with rfl | hx'
      · exact hba
      · exact List.rel_of_pairwise_cons hpw hx'

/-- `insertionSort` sorts any list whose elements the relation totally orders. -/
theorem pairwise_insertionSort_rel {α : Type} (r : α → α → Prop) [DecidableRel r] (P : α → Prop)
    (total : ∀ a b, P a → P b → r a b ∨ r b a)
    (trans : ∀ a b c, P a → P b → P c → r a b → r b c → r a c) :
    ∀ l, (∀ x ∈ l, P x) → (List.insertionSort r l).Pairwise r := by
  intro l
  induction l with
  | nil => intro _; simp
  | cons a l ih =>
    intro hP
    rw [List.insertionSort]
    refine pairwise_orderedInsert_rel r P total trans a (hP a (by simp)) _ ?_
      (ih (fun x hx => hP x (by simp [hx])))
    intro x hx
    have := (List.perm_insertionSort r l).mem_iff.mp hx
    exact hP x (by simp [this])

/-- One failing `process` call on an event with a truthy id is a `queueForReorder` step. -/
theorem process_fail_step (handler : WidgetEvent → Bool) (dp : String → Option Int)
    (now : Int) (st : EQState) (e : WidgetEvent)
    (hfail : handler e = false) (hid : e.event_data.id ≠ "") :
    (EventQueue.process handler dp now st e).state =
      queueForReorder st e.event_data.id e (eventTimestamp dp now e) := by
  unfold EventQueue.process
  rw [hfail]
  simp [hid]

/-- The buffered form of an arriving event (payload plus computed timestamp). -/
def queuedOf (dp : String → Option Int) (p : WidgetEvent × Int) : QueuedEvent :=
  ⟨p.1, eventTimestamp dp p.2 p.1⟩

/-- The queue state after a burst of arrivals is processed in order. -/
def burstState (handler : WidgetEvent → Bool) (dp : String → Option Int)
    (evs : List (WidgetEvent × Int)) (st : EQState) : EQState :=
  evs.foldl (fun acc p => (EventQueue.process handler dp p.2 acc p.1).state) st

/--
Effect of a burst of failing events for one entity: the buffer
accumulates them in arrival order, the timer map holds only the timer
armed by the last failure, the earlier timers of the burst are all
cancelled, and exactly `evs.length` timer ids were handed out.
-/
theorem process_burst (handler : WidgetEvent → Bool) (dp : String → Option Int) (E : String) :
    ∀ (evs : List (WidgetEvent × Int)) (st : EQState), evs ≠ [] →
      (∀ p ∈ evs, p.1.event_data.id = E ∧ E ≠ "" ∧ handler p.1 = false) →
      alGet (burstState handler dp evs st).pendingEvents E
        = some ((alGet st.pendingEvents E).getD [] ++ evs.map (queuedOf dp)) ∧
      alGet (burstState handler dp evs st).pendingEventTimers E
        = some (st.nextTimerId + evs.length - 1) ∧
      (burstState handler dp evs st).nextTimerId = st.nextTimerId + evs.length ∧
      (burstState handler dp evs st).cancelledTimers
        = st.cancelledTimers ++ (alGet st.pendingEventTimers E).toList ++
          (List.range (evs.length - 1)).map (fun k => st.nextTimerId + k) := by
  intro evs
  induction evs with
  | nil => intro st h; exact absurd rfl h
  | cons p rest ih =>
    intro st _ hall
    obtain ⟨hid, hEne, hfail⟩ := hall p (by simp)
    have hstep : burstState handler dp (p :: rest) st =
        burstState handler dp rest (queueForReorder st E p.1 (eventTimestamp dp p.2 p.1)) := by
      unfold burstState
      rw [List.foldl_cons]
      have := process_fail_step handler dp p.2 st p.1 hfail (by rw [hid]; exact hEne)
      rw [this, hid]
    set st1 := queueForReorder st E p.1 (eventTimestamp dp p.2 p.1) with hst1
    have f1 : alGet st1.pendingEvents E
        = some ((alGet st.pendingEvents E).getD [] ++ [queuedOf dp p]) := by
      rw [hst1]
      unfold queueForReorder
      simp [alGet_set, queuedOf]
    have f2 : alGet st1.pendingEventTimers E = some st.nextTimerId := by
      rw [hst1]
      unfold queueForReorder
      simp [alGet_set]
    have f3 : st1.nextTimerId = st.nextTimerId + 1 := rfl
    have f4 : st1.cancelledTimers
        = st.cancelledTimers ++ (alGet st.pendingEventTimers E).toList := by
      rw [hst1]
      unfold queueForReorder
      cases h : alGet st.pendingEventTimers E <;> simp [h]
    by_cases hrest0 : rest = []
    · subst hrest0
      rw [hstep]
      unfold burstState
      rw [List.foldl_nil]
      refine ⟨?_, ?_, ?_, ?_⟩
      · rw [f1]
        simp [queuedOf]
      · rw [f2]
        simp
      · rw [f3]
        simp
      · rw [f4]
        simp
    · obtain ⟨g1, g2, g3, g4⟩ := ih st1 hrest0 (fun x hx => hall x (by simp [hx]))
      rw [hstep]
      have hlpos : 0 < rest.length := List.length_pos.mpr hrest0
      obtain ⟨n, hn⟩ : ∃ n, rest.length = n + 1 := ⟨rest.length - 1, by omega⟩
      refine ⟨?_, ?_, ?_, ?_⟩
      · rw [g1, f1]
        simp [queuedOf]
      · rw [g2, f3]
        congr 1
        simp only [List.length_cons]
        omega
      · rw [g3, f3]
        simp only [List.length_cons]
        omega
      · rw [g4, f4, f2, f3]
        simp only [List.length_cons, Option.toList_some, Nat.add_sub_cancel]
        rw [hn]
        simp only [Nat.add_sub_cancel]
        rw [List.range_succ_eq_map]
        simp only [List.map_cons, List.map_map, Nat.add_zero, List.append_assoc,
          List.cons_append, List.singleton_append]
        congr 2
        simp only [List.nil_append]
        congr 1
        apply List.map_congr_left
        intro a _
        simp [Function.comp]
        omega

/--
C7: after a burst of failing events for one entity is buffered, the
entity has exactly one uncancelled armed timer — the one armed by the
last failure (every earlier timer of the burst was cancelled by the
re-arm) — and the single replay pass performed when that timer expires
(`processPending`) replays the entity's buffered events through the
handler in ascending timestamp order, reports exactly the still-failing
events through the failure callback, clears the entity's buffer and
timer entry regardless of per-event outcome, and arms no new timer — so
no second retry round can occur.
-/
theorem reorder_single_replay (handler : WidgetEvent → Bool) (dp : String → Option Int)
    (E : String) (st0 : EQState) (evs : List (WidgetEvent × Int))
    (hne : evs ≠ [])
    (hall : ∀ p ∈ evs, p.1.event_data.id = E ∧ E ≠ "" ∧ handler p.1 = false)
    (hbuf0 : alGet st0.pendingEvents E = none)
    (htm0 : alGet st0.pendingEventTimers E = none)
    (hc0 : ∀ tid ∈ st0.cancelledTimers, tid < st0.nextTimerId) :
    alGet (burstState handler dp evs st0).pendingEvents E = some (evs.map (queuedOf dp)) ∧
    alGet (burstState handler dp evs st0).pendingEventTimers E
      = some (st0.nextTimerId + evs.length - 1) ∧
    (st0.nextTimerId + evs.length - 1) ∉ (burstState handler dp evs st0).cancelledTimers ∧
    (∀ k, k < evs.length - 1 →
      st0.nextTimerId + k ∈ (burstState handler dp evs st0).cancelledTimers) ∧
    (∀ e, e ∈ (EventQueue.processPending handler (burstState handler dp evs st0) E).errors ↔
      e ∈ (EventQueue.processPending handler (burstState handler dp evs st0) E).handlerCalls ∧
        handler e = false) ∧
    ((∀ p ∈ evs, (eventTimestamp dp p.2 p.1).isSome = true) →
      ∃ qs : List QueuedEvent, List.Perm qs (evs.map (queuedOf dp)) ∧
        List.Pairwise qeLe qs ∧
        (EventQueue.processPending handler (burstState handler dp evs st0) E).handlerCalls
          = List.map QueuedEvent.event qs) ∧
    alGet (EventQueue.processPending handler (burstState handler dp evs st0)
      E).state.pendingEvents E = none ∧
    alGet (EventQueue.processPending handler (burstState handler dp evs st0)
      E).state.pendingEventTimers E = none ∧
    (EventQueue.processPending handler (burstState handler dp evs st0) E).state.nextTimerId
      = (burstState handler dp evs st0).nextTimerId := by
  obtain ⟨g1, g2, g3, g4⟩ := process_burst handler dp E evs st0 hne hall
  rw [hbuf0] at g1
  rw [htm0] at g4
  simp only [Option.getD_none, List.nil_append] at g1
  simp only [Option.toList_none, List.append_nil] at g4
  have hlenpos : evs.length ≥ 1 := by
    cases evs with
    | nil => exact absurd rfl hne
    | cons a l => simp
  have hlen : ¬((evs.map (queuedOf dp)).length = 0) := by
    simp only [List.length_map]
    omega
  have hpp : EventQueue.processPending handler (burstState handler dp evs st0) E =
      ⟨{ burstState handler dp evs st0 with
          pendingEvents := alDelete (burstState handler dp evs st0).pendingEvents E
          pendingEventTimers := alDelete (burstState handler dp evs st0).pendingEventTimers E },
        (List.insertionSort qeLe (evs.map (queuedOf dp))).map (fun q => q.event),
        ((List.insertionSort qeLe (evs.map (queuedOf dp))).filter
          (fun q => !handler q.event)).map (fun q => q.event)⟩ := by
    unfold EventQueue.processPending
    rw [g1]
    dsimp only
    rw [if_neg hlen]
  refine ⟨g1, g2, ?_, ?_, ?_, ?_, ?_, ?_, ?_⟩
  · rw [g4]
    intro hmem
    rcases List.mem_append.mp hmem with h | h
    · have := hc0 _ h
      omega
    · obtain ⟨k, hk, hk2⟩ := List.mem_map.mp h
      rw [List.mem_range] at hk
      omega
  · intro k hk
    rw [g4]
    refine List.mem_append.mpr (Or.inr ?_)
    rw [List.mem_map]
    exact ⟨k, List.mem_range.mpr hk, rfl⟩
  · intro e
    rw [hpp]
    simp only [List.mem_map, List.mem_filter]
    constructor
    · rintro ⟨q, ⟨hq1, hq2⟩, rfl⟩
      refine ⟨⟨q, hq1, rfl⟩, ?_⟩
      simpa using hq2
    · rintro ⟨⟨q, hq1, rfl⟩, hfe⟩
      exact ⟨q, ⟨hq1, by simpa using hfe⟩, rfl⟩
  · intro hts
    refine ⟨List.insertionSort qeLe (evs.map (queuedOf dp)),
      List.perm_insertionSort qeLe _, ?_, by rw [hpp]⟩
    apply pairwise_insertionSort_rel qeLe (fun q => q.timestamp.isSome = true)
    · intro a b ha hb
      obtain ⟨x, hx⟩ := Option.isSome_iff_exists.mp ha
      obtain ⟨y, hy⟩ := Option.isSome_iff_exists.mp hb
      unfold qeLe qeLeB
      rw [hx, hy]
      rcases le_total x y with h | h
      · left
        simpa using h
      · right
        simpa using h
    · intro a b c ha hb hc hab hbc
      obtain ⟨x, hx⟩ := Option.isSome_iff_exists.mp ha
      obtain ⟨y, hy⟩ := Option.isSome_iff_exists.mp hb
      obtain ⟨z, hz⟩ := Option.isSome_iff_exists.mp hc
      unfold qeLe qeLeB at *
      rw [hx, hy] at hab
      rw [hy, hz] at hbc
      rw [hx, hz]
      simp only [decide_eq_true_eq] at *
      omega
    · intro q hq
      obtain ⟨p, hp, rfl⟩ := List.mem_map.mp hq
      exact hts p hp
  · rw [hpp]
    exact alGet_delete _ E
  · rw [hpp]
    exact alGet_delete _ E
  · rw [hpp]

def wEv1 : WidgetEvent := ⟨"item:updated", ⟨"x", none, none, 0, "c1", "t2", "", 0⟩⟩

def wEv2 : WidgetEvent := ⟨"item:updated", ⟨"x", none, none, 0, "c2", "t1", "", 0⟩⟩

def wHandler : WidgetEvent → Bool := fun _ => false

def wEQ0 : EQState := ⟨[], [], 0, []⟩

/--
Witness for C7: two failing events for entity `"x"`; the second failure's
timer (id 1) is the armed one and the first failure's timer (id 0) was
cancelled.
-/
theorem reorder_single_replay_witness :
    alGet (burstState wHandler wdp [(wEv1, 0), (wEv2, 0)] wEQ0).pendingEventTimers "x"
      = some (wEQ0.nextTimerId + 2 - 1) ∧
    wEQ0.nextTimerId + 0 ∈ (burstState wHandler wdp [(wEv1, 0), (wEv2, 0)] wEQ0).cancelledTimers :=
  have h := reorder_single_replay wHandler wdp "x" wEQ0 [(wEv1, 0), (wEv2, 0)]
    (by simp) (by decide) rfl rfl (by simp [wEQ0])
  ⟨h.2.1, h.2.2.2.1 0 (by decide)⟩

/-! ### The `TaskTree` facade: debounced render scheduling -/

/-- `Set.add`: insert if absent. -/
def setAdd (l : List String) (x : String) : List String :=
  if l.contains x then l else l ++ [x]

/-- `Set.delete`: remove an element. -/
def setDelete (l : List String) (x : String) : List String :=
  l.filter (fun y => y ≠ x)

/-- An after-render callback recorded by `queueRender` (enter-hook bookkeeping). -/
inductive ARCallback where
  | task (id : String)
  | sec (id : String)
deriving Repr, DecidableEq

/-- `private readonly renderDelayMs = 150`. -/
def renderDelayMs : Nat := 150

/-- All task ids appearing in a rendered node tree (the view renders subtasks recursively). -/
def nodeIds : TaskNode → List String
  | .mk i _ _ _ _ _ children _ => i :: (children.attach.map (fun c => nodeIds c.1)).flatten
decreasing_by
  have := List.sizeOf_lt_of_mem c.2
  simp only [TaskNode.mk.sizeOf_spec] at *
  omega

/-- All task ids present in the DOM after rendering a snapshot. -/
def snapshotTaskIds (snap : OrganizedProjectData) : List String :=
  (snap.unsectioned.map nodeIds).flatten ++
    (snap.sections.map (fun sec => (sec.tasks.map nodeIds).flatten)).flatten

/-- All section ids present in the DOM after rendering a snapshot. -/
def snapshotSectionIds (snap : OrganizedProjectData) : List String :=
  snap.sections.map (fun sec => sec.id)

/--
State of the `TaskTree` facade: the store plus render-scheduling state.
`renderTimer` holds the delay of the armed timer (the source stores a
timer id; only armed-or-not and which delay matter), `viewTaskIds` /
`viewSectionIds` model the ids present in the rendered DOM (what
`findTaskElement` / `findSectionElement` can find), and `rendered` is the
log of executed `view.render` calls.
-/
structure TaskTreeM where
  store : TaskStore
  renderTimer : Option Nat
  pendingSnapshot : Option OrganizedProjectData
  afterRenderCallbacks : List ARCallback
  pendingTaskAddIds : List String
  pendingSectionAddIds : List String
  animationsInProgress : Nat
  isRendering : Bool
  viewTaskIds : List String
  viewSectionIds : List String
  rendered : List OrganizedProjectData

/-- Running one queued after-render callback: fire the enter hook and clear the pending-enter marker. -/
def runCallback (tt : TaskTreeM) (cb : ARCallback) : TaskTreeM :=
  match cb with
  | .task id => { tt with pendingTaskAddIds := setDelete tt.pendingTaskAddIds id }
  | .sec id => { tt with pendingSectionAddIds := setDelete tt.pendingSectionAddIds id }

/--
`TaskTree.flushRender`: nothing to do without a pending snapshot; while
exit animations are in flight re-arm a 50-unit poll instead of rendering;
otherwise render the pending snapshot, run the queued after-render
callbacks and finish. (The source's trailing re-queue check only fires
when a callback queued a new snapshot; the modelled callbacks never do.)
-/
def TaskTreeM.flushRender (tt : TaskTreeM) : TaskTreeM :=
  match tt.pendingSnapshot with
  | none => tt
  | some snap =>
    if tt.animationsInProgress > 0 then
      match tt.renderTimer with
      | none => { tt with renderTimer := some 50 }
      | some _ => tt
    else
      let tt1 := { tt with
        isRendering := true
        viewTaskIds := snapshotTaskIds snap
        viewSectionIds := snapshotSectionIds snap
        rendered := tt.rendered ++ [snap]
        pendingSnapshot := none
        afterRenderCallbacks := [] }
      let tt2 := tt.afterRenderCallbacks.foldl runCallback tt1
      { tt2 with isRendering := false }

/--
`TaskTree.queueRender`: record the latest snapshot and the optional
after-render callback; bail while rendering or while animations are in
flight; in immediate mode cancel any armed timer and flush now; otherwise
arm the debounce timer unless one is already armed.
-/
def TaskTreeM.queueRender (tt : TaskTreeM) (snap : OrganizedProjectData)
    (immediate : Bool) (afterRender : Option ARCallback) : TaskTreeM :=
  let tt := { tt with
    pendingSnapshot := some snap
    afterRenderCallbacks := tt.afterRenderCallbacks ++ afterRender.toList }
  if tt.isRendering || decide (tt.animationsInProgress > 0) then tt
  else if immediate then TaskTreeM.flushRender { tt with renderTimer := none }
  else if tt.renderTimer.isSome then tt
  else { tt with renderTimer := some renderDelayMs }

/-- Expiry of the debounce timer: `() => { this.flushRender(); this.renderTimer = null; }`. -/
def TaskTreeM.fireRenderTimer (tt : TaskTreeM) : TaskTreeM :=
  match tt.renderTimer with
  | none => tt
  | some _ => { tt.flushRender with renderTimer := none }

/-- `TaskTree.organize`: bulk load then render. -/
def TaskTreeM.organize (tt : TaskTreeM) (data : TodoistProjectResponse) : TaskTreeM :=
  let store := tt.store.organize data
  TaskTreeM.queueRender { tt with store := store } store.snapshot false none

/-- `TaskTree.addTask`: add to the store, mark pending-enter, queue a render. -/
def TaskTreeM.addTask (tt : TaskTreeM) (t : TodoistTask) : Except StoreError TaskTreeM :=
  match tt.store.addTask t with
  | .error e => .error e
  | .ok store =>
    .ok (TaskTreeM.queueRender
      { tt with store := store, pendingTaskAddIds := setAdd tt.pendingTaskAddIds t.id }
      store.snapshot false (some (.task t.id)))

/-- `TaskTree.updateTask`: update the store then queue a render (also after a stale skip). -/
def TaskTreeM.updateTask (dp : String → Option Int) (tt : TaskTreeM) (t : TodoistTask) :
    Except StoreError TaskTreeM :=
  match tt.store.updateTask dp t with
  | .error e => .error e
  | .ok store =>
    .ok (TaskTreeM.queueRender { tt with store := store } store.snapshot false none)

/-- `TaskTree.addSection`: upsert, mark pending-enter, queue a render. -/
def TaskTreeM.addSection (tt : TaskTreeM) (sec : SectionRecord) : TaskTreeM :=
  let store := tt.store.addSection sec
  TaskTreeM.queueRender
    { tt with store := store, pendingSectionAddIds := setAdd tt.pendingSectionAddIds sec.id }
    store.snapshot false (some (.sec sec.id))

/-- `TaskTree.updateSection`: update the store; queue a render unless the update was skipped. -/
def TaskTreeM.updateSection (dp : String → Option Int) (tt : TaskTreeM) (sec : SectionRecord) :
    Except StoreError TaskTreeM :=
  match tt.store.updateSection dp sec with
  | .error e => .error e
  | .ok res =>
    if res.2 then .ok { tt with store := res.1 }
    else .ok (TaskTreeM.queueRender { tt with store := res.1 } res.1.snapshot false none)

/--
`TaskTree.removeTask`: remove from the store immediately; if the element
is in the DOM (the widget installs an `onTaskRemove` hook) start the exit
animation and defer the render to the animation's `done` callback,
otherwise queue a render now.
-/
def TaskTreeM.removeTask (tt : TaskTreeM) (taskId : String) : TaskTreeM :=
  let elementFound := tt.viewTaskIds.contains taskId
  let store := tt.store.removeTask taskId
  if elementFound then
    { tt with store := store, animationsInProgress := tt.animationsInProgress + 1 }
  else
    TaskTreeM.queueRender { tt with store := store } store.snapshot false none

/-- `TaskTree.removeSection`: same shape as `removeTask`. -/
def TaskTreeM.removeSection (tt : TaskTreeM) (sectionId : String) : TaskTreeM :=
  let elementFound := tt.viewSectionIds.contains sectionId
  let store := tt.store.removeSection sectionId
  if elementFound then
    { tt with store := store, animationsInProgress := tt.animationsInProgress + 1 }
  else
    TaskTreeM.queueRender { tt with store := store } store.snapshot false none

/-- The exit-animation `done` callback: drop the counter and queue a render. -/
def TaskTreeM.removeAnimationDone (tt : TaskTreeM) : TaskTreeM :=
  let tt := { tt with animationsInProgress := tt.animationsInProgress - 1 }
  TaskTreeM.queueRender tt tt.store.snapshot false none

/-! ### The widget's event dispatch (`ProjectWidgetScript.processEvent`) -/

/-- Widget state: the displayed project title element's text plus the task tree. -/
structure WidgetState where
  projectTitle : String
  taskTree : TaskTreeM

/--
`ProjectWidgetScript.processEvent`: dispatch a realtime event to the
matching `TaskTree` method; `project:updated` only writes the payload's
name into the displayed title element; unrecognized events are ignored.
-/
def ProjectWidgetScript.processEvent (dp : String → Option Int) (w : WidgetState)
    (message : WidgetEvent) : Except StoreError WidgetState :=
  match message.event_name with
  | "item:completed" | "item:deleted" =>
      .ok { w with taskTree := w.taskTree.removeTask message.event_data.id }
  | "section:archived" | "section:deleted" =>
      .ok { w with taskTree := w.taskTree.removeSection message.event_data.id }
  | "item:updated" =>
      match TaskTreeM.updateTask dp w.taskTree message.event_data.toTask with
      | .error e => .error e
      | .ok tt => .ok { w with taskTree := tt }
  | "project:updated" =>
      .ok { w with projectTitle := message.event_data.name }
  | "item:added" | "item:uncompleted" =>
      match w.taskTree.addTask message.event_data.toTask with
      | .error e => .error e
      | .ok tt => .ok { w with taskTree := tt }
  | "section:added" | "section:unarchived" =>
      .ok { w with taskTree := w.taskTree.addSection message.event_data.toSection }
  | "section:updated" =>
      match TaskTreeM.updateSection dp w.taskTree message.event_data.toSection with
      | .error e => .error e
      | .ok tt => .ok { w with taskTree := tt }
  | _ => .ok w

/-- A freshly initialized `TaskTree` over a given store (no timers, nothing rendered). -/
def idleTree (s : TaskStore) : TaskTreeM :=
  { store := s, renderTimer := none, pendingSnapshot := none, afterRenderCallbacks := []
    pendingTaskAddIds := [], pendingSectionAddIds := [], animationsInProgress := 0
    isRendering := false, viewTaskIds := [], viewSectionIds := [], rendered := [] }

def pWidget : WidgetState := ⟨"Old", idleTree ⟨some ⟨"Old", []⟩, [], []⟩⟩

def pEvent : WidgetEvent := ⟨"project:updated", ⟨"", none, none, 0, "", "", "New", 0⟩⟩

/--
Counterexample to C3 as stated: processing `project:updated` with payload
name `"New"` leaves the stored Project header untouched — the subsequent
snapshot's project still carries the OLD name, not the new one (only the
displayed title text changes).
-/
theorem project_updated_counterexample :
    ProjectWidgetScript.processEvent wdp pWidget pEvent
      = .ok { pWidget with projectTitle := "New" } ∧
    (TaskStore.snapshot (WidgetState.taskTree
        { pWidget with projectTitle := "New" }).store).project = some ⟨"Old", []⟩ ∧
    ("Old" : String) ≠ "New" :=
  ⟨rfl, rfl, by decide⟩

/--
C3 amended: processing a `project:updated` event replaces only the
DISPLAYED project title text with the payload's name; the stored Project
header, all stored tasks and sections, and hence the next snapshot are
completely unchanged (the snapshot's project keeps the previous name).
-/
theorem project_updated_title_only (dp : String → Option Int) (w : WidgetState)
    (m : WidgetEvent) (h : m.event_name = "project:updated") :
    ProjectWidgetScript.processEvent dp w m
      = .ok { w with projectTitle := m.event_data.name } := by
  unfold ProjectWidgetScript.processEvent
  rw [h]
  rfl

/-- Witness for the amended C3 at the concrete widget state. -/
theorem project_updated_title_only_witness :
    ProjectWidgetScript.processEvent wdp pWidget pEvent
      = .ok { pWidget with projectTitle := pEvent.event_data.name } :=
  project_updated_title_only wdp pWidget pEvent rfl

/-! ### Debounced render coalescing -/

/-- The public mutation entry points exercised by a render burst. -/
inductive Mutation where
  | addTask (t : TodoistTask)
  | updateTask (t : TodoistTask)
  | addSection (sec : SectionRecord)
  | updateSection (sec : SectionRecord)
deriving Repr, DecidableEq

/-- Apply one mutation through the `TaskTree` facade. -/
def applyMutation (dp : String → Option Int) (tt : TaskTreeM) :
    Mutation → Except StoreError TaskTreeM
  | .addTask t => tt.addTask t
  | .updateTask t => TaskTreeM.updateTask dp tt t
  | .addSection sec => .ok (tt.addSection sec)
  | .updateSection sec => TaskTreeM.updateSection dp tt sec

/-- Apply a burst of mutations in call order. -/
def applyMutations (dp : String → Option Int) (tt : TaskTreeM) :
    List Mutation → Except StoreError TaskTreeM
  | [] => .ok tt
  | m :: ms =>
    match applyMutation dp tt m with
    | .error e => .error e
    | .ok tt' => applyMutations dp tt' ms

/-- The same burst applied directly to a store (the combined store effect). -/
def storeMutStep (dp : String → Option Int) (s : TaskStore) :
    Mutation → Except StoreError TaskStore
  | .addTask t => s.addTask t
  | .updateTask t => s.updateTask dp t
  | .addSection sec => .ok (s.addSection sec)
  | .updateSection sec =>
    match s.updateSection dp sec with
    | .error e => .error e
    | .ok res => .ok res.1

def storeMutations (dp : String → Option Int) (s : TaskStore) :
    List Mutation → Except StoreError TaskStore
  | [] => .ok s
  | m :: ms =>
    match storeMutStep dp s m with
    | .error e => .error e
    | .ok s' => storeMutations dp s' ms

/-- Scheduler at rest: no armed timer, no pending snapshot, nothing in flight. -/
def TaskTreeM.Idle (tt : TaskTreeM) : Prop :=
  tt.renderTimer = none ∧ tt.pendingSnapshot = none ∧ tt.isRendering = false ∧
    tt.animationsInProgress = 0

/--
Scheduler mid-burst: the debounce timer is armed, the pending snapshot is
the snapshot of the current store, and the render log still reads `R`.
-/
def ArmedFrom (R : List OrganizedProjectData) (tt : TaskTreeM) : Prop :=
  tt.renderTimer = some renderDelayMs ∧
  tt.pendingSnapshot = some tt.store.snapshot ∧
  tt.isRendering = false ∧ tt.animationsInProgress = 0 ∧ tt.rendered = R

/-- A non-immediate `queueRender` while the timer is armed only swaps the pending snapshot. -/
theorem queueRender_armed_step (R : List OrganizedProjectData) (tt : TaskTreeM)
    (snap : OrganizedProjectData) (cb : Option ARCallback)
    (h1 : tt.renderTimer = some renderDelayMs) (h3 : tt.isRendering = false)
    (h4 : tt.animationsInProgress = 0) (h5 : tt.rendered = R)
    (hsnap : snap = tt.store.snapshot) :
    ArmedFrom R (TaskTreeM.queueRender tt snap false cb) := by
  unfold TaskTreeM.queueRender ArmedFrom
  simp [h1, h3, h4, h5, hsnap]

/-- A non-immediate `queueRender` from the idle state arms the debounce timer. -/
theorem queueRender_idle_step (tt : TaskTreeM) (snap : OrganizedProjectData)
    (cb : Option ARCallback)
    (h1 : tt.renderTimer = none) (h3 : tt.isRendering = false)
    (h4 : tt.animationsInProgress = 0) (hsnap : snap = tt.store.snapshot) :
    ArmedFrom tt.rendered (TaskTreeM.queueRender tt snap false cb) := by
  unfold TaskTreeM.queueRender ArmedFrom
  simp [h1, h3, h4, hsnap]

/-- A skipped section update leaves the store unchanged. -/
theorem updateSection_skipped_eq (dp : String → Option Int) (s : TaskStore)
    (sec : SectionRecord) (s' : TaskStore)
    (h : s.updateSection dp sec = .ok (s', true)) : s' = s := by
  unfold TaskStore.updateSection at h
  cases hfind : findSec s.sections sec.id <;> rw [hfind] at h
  · exact absurd h (by simp)
  · dsimp only at h
    split at h
    · simp only [Except.ok.injEq, Prod.mk.injEq] at h
      exact h.1.symm
    · simp at h

/-- Every mutation applied mid-burst keeps the scheduler armed with the same render log. -/
theorem applyMutation_armed (dp : String → Option Int) (R : List OrganizedProjectData)
    (tt : TaskTreeM) (m : Mutation) (tt' : TaskTreeM)
    (harm : ArmedFrom R tt) (happ : applyMutation dp tt m = .ok tt') :
    ArmedFrom R tt' := by
  obtain ⟨h1, h2, h3, h4, h5⟩ := harm
  cases m with
  | addTask t =>
    simp only [applyMutation] at happ
    unfold TaskTreeM.addTask at happ
    cases hop : tt.store.addTask t <;> rw [hop] at happ
    · exact absurd happ (by simp)
    · simp only [Except.ok.injEq] at happ
      subst happ
      exact queueRender_armed_step R _ _ _ h1 h3 h4 h5 rfl
  | updateTask t =>
    simp only [applyMutation] at happ
    unfold TaskTreeM.updateTask at happ
    cases hop : tt.store.updateTask dp t <;> rw [hop] at happ
    · exact absurd happ (by simp)
    · simp only [Except.ok.injEq] at happ
      subst happ
      exact queueRender_armed_step R _ _ _ h1 h3 h4 h5 rfl
  | addSection sec =>
    simp only [applyMutation] at happ
    unfold TaskTreeM.addSection at happ
    simp only [Except.ok.injEq] at happ
    subst happ
    exact queueRender_armed_step R _ _ _ h1 h3 h4 h5 rfl
  | updateSection sec =>
    simp only [applyMutation] at happ
    unfold TaskTreeM.updateSection at happ
    cases hop : tt.store.updateSection dp sec <;> rw [hop] at happ
    · exact absurd happ (by simp)
    · rename_i res
      obtain ⟨s', skipped⟩ := res
      cases skipped with
      | true =>
        have hs : s' = tt.store := updateSection_skipped_eq dp tt.store sec s' hop
        simp at happ
        subst happ
        subst hs
        exact ⟨h1, h2, h3, h4, h5⟩
      | false =>
        simp at happ
        subst happ
        exact queueRender_armed_step R _ _ _ h1 h3 h4 h5 rfl

/-- A whole burst applied mid-burst keeps the scheduler armed. -/
theorem applyMutations_armed (dp : String → Option Int) (R : List OrganizedProjectData) :
    ∀ (ms : List Mutation) (tt tt' : TaskTreeM), ArmedFrom R tt →
      applyMutations dp tt ms = .ok tt' → ArmedFrom R tt' := by
  intro ms
  induction ms with
  | nil =>
    intro tt tt' harm happ
    simp only [applyMutations, Except.ok.injEq] at happ
    exact happ ▸ harm
  | cons m ms ih =>
    intro tt tt' harm happ
    unfold applyMutations at happ
    cases hop : applyMutation dp tt m <;> rw [hop] at happ
    · exact absurd happ (by simp)
    · exact ih _ _ (applyMutation_armed dp R tt m _ harm hop) happ

/-- The first mutation of a burst (not a section update) arms the scheduler. -/
theorem applyMutation_idle_arms (dp : String → Option Int) (tt : TaskTreeM) (m : Mutation)
    (tt' : TaskTreeM) (hidle : tt.Idle) (hns : ∀ sec, m ≠ .updateSection sec)
    (happ : applyMutation dp tt m = .ok tt') :
    ArmedFrom tt.rendered tt' := by
  obtain ⟨h1, h2, h3, h4⟩ := hidle
  cases m with
  | addTask t =>
    simp only [applyMutation] at happ
    unfold TaskTreeM.addTask at happ
    cases hop : tt.store.addTask t <;> rw [hop] at happ
    · exact absurd happ (by simp)
    · simp only [Except.ok.injEq] at happ
      subst happ
      exact queueRender_idle_step _ _ _ h1 h3 h4 rfl
  | updateTask t =>
    simp only [applyMutation] at happ
    unfold TaskTreeM.updateTask at happ
    cases hop : tt.store.updateTask dp t <;> rw [hop] at happ
    · exact absurd happ (by simp)
    · simp only [Except.ok.injEq] at happ
      subst happ
      exact queueRender_idle_step _ _ _ h1 h3 h4 rfl
  | addSection sec =>
    simp only [applyMutation] at happ
    unfold TaskTreeM.addSection at happ
    simp only [Except.ok.injEq] at happ
    subst happ
    exact queueRender_idle_step _ _ _ h1 h3 h4 rfl
  | updateSection sec => exact absurd rfl (hns sec)

/-- Running the queued after-render callbacks touches only the pending-enter id sets. -/
theorem foldl_runCallback_fields (cbs : List ARCallback) :
    ∀ tt : TaskTreeM,
      (cbs.foldl runCallback tt).rendered = tt.rendered ∧
      (cbs.foldl runCallback tt).pendingSnapshot = tt.pendingSnapshot ∧
      (cbs.foldl runCallback tt).renderTimer = tt.renderTimer ∧
      (cbs.foldl runCallback tt).isRendering = tt.isRendering ∧
      (cbs.foldl runCallback tt).animationsInProgress = tt.animationsInProgress ∧
      (cbs.foldl runCallback tt).store = tt.store := by
  induction cbs with
  | nil => intro tt; exact ⟨rfl, rfl, rfl, rfl, rfl, rfl⟩
  | cons cb cbs ih =>
    intro tt
    cases cb with
    | task id => exact ih _
    | sec id => exact ih _

/-- `flushRender` with a pending snapshot and no animations renders exactly it. -/
theorem flushRender_renders (R : List OrganizedProjectData) (tt : TaskTreeM)
    (snap : OrganizedProjectData)
    (h2 : tt.pendingSnapshot = some snap) (h4 : tt.animationsInProgress = 0)
    (h5 : tt.rendered = R) :
    (tt.flushRender).rendered = R ++ [snap] ∧
    (tt.flushRender).pendingSnapshot = none ∧
    (tt.flushRender).isRendering = false ∧
    (tt.flushRender).store = tt.store := by
  unfold TaskTreeM.flushRender
  rw [h2]
  dsimp only
  rw [if_neg (by omega)]
  have hf := foldl_runCallback_fields tt.afterRenderCallbacks
    { tt with
      isRendering := true
      viewTaskIds := snapshotTaskIds snap
      viewSectionIds := snapshotSectionIds snap
      rendered := tt.rendered ++ [snap]
      pendingSnapshot := none
      afterRenderCallbacks := [] }
  refine ⟨?_, ?_, rfl, ?_⟩
  · rw [hf.1]
    simp [h5]
  · rw [hf.2.1]
  · rw [hf.2.2.2.2.2]

/-- Firing the armed debounce timer renders the pending snapshot and disarms. -/
theorem fireRenderTimer_armed (R : List OrganizedProjectData) (tt : TaskTreeM)
    (harm : ArmedFrom R tt) :
    (tt.fireRenderTimer).rendered = R ++ [tt.store.snapshot] ∧
    (tt.fireRenderTimer).pendingSnapshot = none ∧
    (tt.fireRenderTimer).renderTimer = none := by
  obtain ⟨h1, h2, h3, h4, h5⟩ := harm
  have hfl := flushRender_renders R tt tt.store.snapshot h2 h4 h5
  unfold TaskTreeM.fireRenderTimer
  rw [h1]
  dsimp only
  exact ⟨hfl.1, hfl.2.1, rfl⟩

/-- The store carried by the facade tracks the pure store fold. -/
theorem queueRender_store (tt : TaskTreeM) (snap : OrganizedProjectData)
    (cb : Option ARCallback) :
    (TaskTreeM.queueRender tt snap false cb).store = tt.store := by
  unfold TaskTreeM.queueRender
  simp only [Bool.false_eq_true, if_false]
  split
  · rfl
  · split
    · rfl
    · rfl

theorem applyMutation_store (dp : String → Option Int) (tt : TaskTreeM) (m : Mutation)
    (tt' : TaskTreeM) (happ : applyMutation dp tt m = .ok tt') :
    storeMutStep dp tt.store m = .ok tt'.store := by
  cases m with
  | addTask t =>
    simp only [applyMutation] at happ
    unfold TaskTreeM.addTask at happ
    cases hop : tt.store.addTask t <;> rw [hop] at happ
    · exact absurd happ (by simp)
    · simp only [Except.ok.injEq] at happ
      subst happ
      simp only [storeMutStep]
      rw [hop, queueRender_store]
  | updateTask t =>
    simp only [applyMutation] at happ
    unfold TaskTreeM.updateTask at happ
    cases hop : tt.store.updateTask dp t <;> rw [hop] at happ
    · exact absurd happ (by simp)
    · simp only [Except.ok.injEq] at happ
      subst happ
      simp only [storeMutStep]
      rw [hop, queueRender_store]
  | addSection sec =>
    simp only [applyMutation] at happ
    unfold TaskTreeM.addSection at happ
    simp only [Except.ok.injEq] at happ
    subst happ
    simp only [storeMutStep]
    rw [queueRender_store]
  | updateSection sec =>
    simp only [applyMutation] at happ
    unfold TaskTreeM.updateSection at happ
    cases hop : tt.store.updateSection dp sec <;> rw [hop] at happ
    · exact absurd happ (by simp)
    · rename_i res
      obtain ⟨s', skipped⟩ := res
      simp only [storeMutStep]
      rw [hop]
      cases skipped with
      | true =>
        simp at happ
        subst happ
        rfl
      | false =>
        simp at happ
        subst happ
        rw [queueRender_store]

theorem applyMutations_store (dp : String → Option Int) :
    ∀ (ms : List Mutation) (tt tt' : TaskTreeM), applyMutations dp tt ms = .ok tt' →
      storeMutations dp tt.store ms = .ok tt'.store := by
  intro ms
  induction ms with
  | nil =>
    intro tt tt' happ
    simp only [applyMutations, Except.ok.injEq] at happ
    subst happ
    rfl
  | cons m ms ih =>
    intro tt tt' happ
    unfold applyMutations at happ
    cases hop : applyMutation dp tt m <;> rw [hop] at happ
    · exact absurd happ (by simp)
    · unfold storeMutations
      rw [applyMutation_store dp tt m _ hop]
      exact ih _ _ happ

/--
C9: render requests are debounced with the fixed 150-unit window —
starting from an idle scheduler, a burst of mutations (led by a mutation
that requests a render; every successful mutation, including later stale
section updates, is covered) executes no render while the window is open,
keeps exactly one armed debounce timer whose pending snapshot is the
snapshot of the current (combined-effect) store, and when that timer
fires exactly one render executes, consuming the snapshot of the store
after ALL mutations of the burst.
-/
theorem debounce_single_render (dp : String → Option Int) (tt0 : TaskTreeM)
    (m0 : Mutation) (rest : List Mutation) (ttN : TaskTreeM)
    (hidle : tt0.Idle)
    (hns : ∀ sec, m0 ≠ .updateSection sec)
    (happ : applyMutations dp tt0 (m0 :: rest) = .ok ttN) :
    renderDelayMs = 150 ∧
    ttN.rendered = tt0.rendered ∧
    ttN.renderTimer = some renderDelayMs ∧
    ttN.pendingSnapshot = some ttN.store.snapshot ∧
    storeMutations dp tt0.store (m0 :: rest) = .ok ttN.store ∧
    (ttN.fireRenderTimer).rendered = tt0.rendered ++ [ttN.store.snapshot] ∧
    (ttN.fireRenderTimer).pendingSnapshot = none ∧
    (ttN.fireRenderTimer).renderTimer = none := by
  have hstore := applyMutations_store dp (m0 :: rest) tt0 ttN happ
  unfold applyMutations at happ
  cases hop : applyMutation dp tt0 m0 <;> rw [hop] at happ
  · exact absurd happ (by simp)
  · have harm1 := applyMutation_idle_arms dp tt0 m0 _ hidle hns hop
    have harmN := applyMutations_armed dp tt0.rendered rest _ ttN harm1 happ
    obtain ⟨a1, a2, a3, a4, a5⟩ := harmN
    have hfire := fireRenderTimer_armed tt0.rendered ttN ⟨a1, a2, a3, a4, a5⟩
    exact ⟨rfl, a5, a1, a2, hstore, hfire.1, hfire.2.1, hfire.2.2⟩

def wTT0 : TaskTreeM := idleTree ⟨none, [], []⟩

def wMuts : List Mutation := [.addTask wTaskStored, .updateTask wTaskEq]

def wTTN : TaskTreeM :=
  match applyMutations wdp wTT0 wMuts with
  | .ok tt => tt
  | .error _ => wTT0

/--
Witness for C9: the spec's own scenario — `addTask` followed by
`updateTask` within the window — yields one armed timer and, at expiry,
exactly one render of the combined-effect snapshot.
-/
theorem debounce_single_render_witness :
    wTTN.renderTimer = some renderDelayMs ∧
    (wTTN.fireRenderTimer).rendered = wTT0.rendered ++ [wTTN.store.snapshot] ∧
    (wTTN.fireRenderTimer).renderTimer = none :=
  have h := debounce_single_render wdp wTT0 (.addTask wTaskStored) [.updateTask wTaskEq] wTTN
    ⟨rfl, rfl, rfl, rfl⟩ (fun sec => by simp) rfl
  ⟨h.2.2.1, h.2.2.2.2.2.1, h.2.2.2.2.2.2.2⟩

end TodoistWidget
